import Mathlib

/-!
Verification of the TanukiSoft `.tac` archive packer (`src/TanukiSoft/arctac.py`).

The packer is shallowly embedded: byte strings are `List Nat` (each element a
byte value, or a Unicode code point for path strings), Python integers are
`Nat` with explicit `% 2 ^ 64` wraparound where the source masks, and the two
external primitives — `zlib.compress` (deflate) and the Blowfish-ECB cipher —
are passed in as explicit function parameters, since their code is not part of
this repository.  Every other definition is translated directly from the
Python source.
-/

namespace ArcTac

/-- Bytes of the 4-byte archive signature `b'TArc'` (source line 11). -/
def SIGNATURE : List Nat := [0x54, 0x41, 0x72, 0x63]

/-- Bytes of the 5-byte version constant `b'1.10\0'` (source line 12). -/
def VERSION : List Nat := [0x31, 0x2E, 0x31, 0x30, 0x00]

/-- Little-endian serialization of `struct.pack('<H', n)` (2 bytes). -/
def pack16 (n : Nat) : List Nat := [n % 256, n / 256 % 256]

/-- Little-endian serialization of `struct.pack('<I', n)` (4 bytes). -/
def pack32 (n : Nat) : List Nat :=
  [n % 256, n / 256 % 256, n / 256 ^ 2 % 256, n / 256 ^ 3 % 256]

/-- Little-endian serialization of `struct.pack('<Q', n)` (8 bytes). -/
def pack64 (n : Nat) : List Nat :=
  [n % 256, n / 256 % 256, n / 256 ^ 2 % 256, n / 256 ^ 3 % 256,
   n / 256 ^ 4 % 256, n / 256 ^ 5 % 256, n / 256 ^ 6 % 256, n / 256 ^ 7 % 256]

/-- Code points of a Lean string literal; Python strings are sequences of
code points, embedded here as `List Nat`. -/
def str_codes (s : String) : List Nat := s.data.map Char.toNat

/-- One character of `s.upper()` restricted to ASCII letters, which is the
only range exercised by `hash_from_ascii_string` (the function's contract is
ASCII path strings). -/
def py_upper (c : Nat) : Nat := if 97 ≤ c ∧ c ≤ 122 then c - 32 else c

/-- The normalization `s.replace('\\', '/').upper()` from source line 25:
every backslash (92) becomes a forward slash (47), then the string is
upper-cased character by character. -/
def normalize_path (s : List Nat) : List Nat :=
  (s.map (fun c => if c = 92 then 47 else c)).map py_upper

/-- The loop body of source lines 27-29: for each code point `c`,
`hash_val = (char_code + 0x19919 * hash_val + seed) & 0xFFFFFFFFFFFFFFFF`
with `char_code = ord(c) & 0xFFFFFFFF`. -/
def hash_loop (seed h : Nat) : List Nat → Nat
  | [] => h
  | c :: rest => hash_loop seed ((c % 2 ^ 32 + 0x19919 * h + seed) % 2 ^ 64) rest

/-- `TacPacker.hash_from_ascii_string` (source lines 23-30). -/
def hash_from_ascii_string (s : List Nat) (seed : Nat) : Nat :=
  hash_loop seed 0 (normalize_path s)

/-- One file collected from the input tree: its normalized relative path and
its raw content bytes. -/
structure SrcFile where
  rel_path : List Nat
  content : List Nat
deriving DecidableEq

/-- One entry record, mirroring the dict built in `collect_files` /
`process_files` (source lines 37-49 and 51-70).  The unused `path` and
`encrypted_size` dict keys are dropped; `data` holds the compressed bytes. -/
structure Entry where
  rel_path : List Nat
  full_hash : Nat
  bucket_hash : Nat
  entry_hash_low : Nat
  is_packed : Bool
  unpacked_size : Nat
  size : Nat
  offset : Nat
  data : List Nat
deriving DecidableEq

/-- One bucket-table row (source lines 84-88). -/
structure Bucket where
  hash : Nat
  count : Nat
  index : Nat
deriving DecidableEq

/-- The body of the `process_files` loop for one file at running offset
`cur` (source lines 54-70): read, compress, record sizes and provisional
offset, and derive the three hash fields from the 64-bit path hash. -/
def process_one (compress : List Nat → List Nat) (seed : Nat) (f : SrcFile)
    (cur : Nat) : Entry :=
  let compressed := compress f.content
  let fh := hash_from_ascii_string f.rel_path seed
  { rel_path := f.rel_path
    full_hash := fh
    bucket_hash := fh / 2 ^ 48 % 2 ^ 16
    entry_hash_low := fh % 2 ^ 48
    is_packed := true
    unpacked_size := f.content.length
    size := compressed.length
    offset := cur
    data := compressed }

/-- `TacPacker.process_files` (source lines 51-70): process each collected
file in order, threading `current_offset` (which starts at 0). -/
def process_files (compress : List Nat → List Nat) (seed : Nat) :
    Nat → List SrcFile → List Entry
  | _, [] => []
  | cur, f :: fs =>
    let e := process_one compress seed f cur
    e :: process_files compress seed (cur + e.data.length) fs

/-- The sort key used at source line 92:
`self.entries.sort(key=lambda e: (e['bucket_hash'], e['entry_hash_low']))`,
i.e. non-strict lexicographic order on the pair. -/
def entry_key_le (a b : Entry) : Prop :=
  a.bucket_hash < b.bucket_hash ∨
    (a.bucket_hash = b.bucket_hash ∧ a.entry_hash_low ≤ b.entry_hash_low)

instance : DecidableRel entry_key_le := fun a b =>
  decidable_of_iff
    (a.bucket_hash < b.bucket_hash ∨
      (a.bucket_hash = b.bucket_hash ∧ a.entry_hash_low ≤ b.entry_hash_low))
    Iff.rfl

instance : IsTotal Entry entry_key_le :=
  ⟨by intro a b; unfold entry_key_le; omega⟩

instance : IsTrans Entry entry_key_le :=
  ⟨by intro a b c; unfold entry_key_le; omega⟩

/-- The sorted list of distinct bucket hashes: `sorted(bucket_dict.items())`
iterates the grouping dict's keys (first-occurrence order) in ascending
order (source lines 74-79).  `dedup` keeps first occurrences; after
deduplication the keys are distinct, so plain ascending order is the result. -/
def bucket_keys (entries : List Entry) : List Nat :=
  List.insertionSort (· ≤ ·) (entries.map Entry.bucket_hash).dedup

/-- The bucket-table construction loop (source lines 80-89): one row per
distinct bucket hash in ascending key order, `Count` the size of that hash's
group, `Index` the running total of earlier groups' sizes. -/
def bucket_rows (entries : List Entry) : Nat → List Nat → List Bucket
  | _, [] => []
  | start, k :: ks =>
    let c := entries.countP (fun e => e.bucket_hash == k)
    { hash := k, count := c, index := start } ::
      bucket_rows entries (start + c) ks

/-- `TacPacker.build_buckets` (source lines 72-92): build the bucket table
from the (pre-sort) entry list, then stably re-sort the entries by
`(bucket_hash, entry_hash_low)`.  Python's `list.sort` is a stable sort;
it is modelled by the stable `List.insertionSort` (any two stable sorts of
the same list under the same total preorder produce the same output). -/
def build_buckets (entries : List Entry) : List Bucket × List Entry :=
  (bucket_rows entries 0 (bucket_keys entries),
   List.insertionSort entry_key_le entries)

/-- One bucket record of the index blob, `struct.pack('<HHI', ...)`
(source line 100). -/
def bucket_record (b : Bucket) : List Nat :=
  pack16 b.hash ++ pack16 b.count ++ pack32 b.index

/-- One entry record of the index blob, `struct.pack('<QIIII', ...)`
(source lines 108-115). -/
def entry_record (e : Entry) : List Nat :=
  pack64 e.entry_hash_low ++ pack32 (if e.is_packed then 1 else 0) ++
    pack32 e.unpacked_size ++ pack32 e.offset ++ pack32 e.size

/-- `TacPacker.build_index` (source lines 94-117): all bucket records
followed by all entry records, no separators. -/
def build_index (buckets : List Bucket) (entries : List Entry) : List Nat :=
  (buckets.map bucket_record).flatten ++ (entries.map entry_record).flatten

/-- The zero-padding length `(8 - (len(compressed_index) % 8)) % 8`
(source line 134). -/
def pad_len (n : Nat) : Nat := (8 - n % 8) % 8

/-- Modelled from the spec: the Blowfish-ECB encryption of the compressed
index (source lines 133-135 and 150).  The cipher itself is an external
primitive (PyCryptodome), so it is a parameter `enc`; the source-level
zero-padding of the input to the next 8-byte boundary is kept explicit. -/
def encrypt_index (enc : List Nat → List Nat) (compressed : List Nat) :
    List Nat :=
  enc (compressed ++ List.replicate (pad_len compressed.length) 0)

/-- Modelled from the spec: a block cipher in ECB mode maps its (padded)
input to a ciphertext of the same byte length (section 4.5: the padded
length is what is recorded as `index_size`). -/
def LenPreserving (enc : List Nat → List Nat) : Prop :=
  ∀ l, (enc l).length = l.length

/-- The state after `build_buckets` inside `write_archive` (source lines
122-124): the bucket table and the sorted entry list, with provisional
offsets assigned by `process_files` (running from 0). -/
def sorted_state (compress : List Nat → List Nat) (seed : Nat)
    (files : List SrcFile) : List Bucket × List Entry :=
  build_buckets (process_files compress seed 0 files)

/-- The provisional (first-pass) index blob of source line 127. -/
def index_blob_provisional (compress : List Nat → List Nat) (seed : Nat)
    (files : List SrcFile) : List Nat :=
  build_index (sorted_state compress seed files).1
    (sorted_state compress seed files).2

/-- `index_size = len(encrypted_index)` from the first pass
(source lines 130-136). -/
def index_size_of (compress enc : List Nat → List Nat) (seed : Nat)
    (files : List SrcFile) : Nat :=
  (encrypt_index enc (compress (index_blob_provisional compress seed files))).length

/-- `base_offset = 0x2C + index_size` (source line 139). -/
def base_offset_of (compress enc : List Nat → List Nat) (seed : Nat)
    (files : List SrcFile) : Nat :=
  0x2C + index_size_of compress enc seed files

/-- The offset-update loop of source lines 142-145: walk the (sorted)
entries, assigning each the running offset and advancing it by
`len(e['data'])`. -/
def assign_offsets : Nat → List Entry → List Entry
  | _, [] => []
  | cur, e :: es => { e with offset := cur } :: assign_offsets (cur + e.data.length) es

/-- The final entry table: sorted entries with second-pass offsets running
from `base_offset`. -/
def final_entries (compress enc : List Nat → List Nat) (seed : Nat)
    (files : List SrcFile) : List Entry :=
  assign_offsets (base_offset_of compress enc seed files)
    (sorted_state compress seed files).2

/-- The rebuilt (second-pass) index blob of source line 148. -/
def index_blob_final (compress enc : List Nat → List Nat) (seed : Nat)
    (files : List SrcFile) : List Nat :=
  build_index (sorted_state compress seed files).1
    (final_entries compress enc seed files)

/-- The re-encrypted index actually written to the file (source line 150). -/
def encrypted_index_final (compress enc : List Nat → List Nat) (seed : Nat)
    (files : List SrcFile) : List Nat :=
  encrypt_index enc (compress (index_blob_final compress enc seed files))

/-- The payload region: each entry's compressed bytes concatenated in final
entry-table order (source lines 168-169). -/
def payload_of (compress enc : List Nat → List Nat) (seed : Nat)
    (files : List SrcFile) : List Nat :=
  ((final_entries compress enc seed files).map Entry.data).flatten

/-- The bytes of the whole archive file as written by source lines 153-169:
signature, version, the four `<IIII>` header fields (entry count, bucket
count, first-pass `index_size`, seed), the 19 zero bytes produced by
`f.seek(0x2C)` after the 25 header bytes, the second-pass encrypted index,
then the payload. -/
def archive_bytes (compress enc : List Nat → List Nat) (seed : Nat)
    (files : List SrcFile) : List Nat :=
  SIGNATURE ++ VERSION ++
    pack32 (sorted_state compress seed files).2.length ++
    pack32 (sorted_state compress seed files).1.length ++
    pack32 (index_size_of compress enc seed files) ++
    pack32 seed ++
    List.replicate 19 0 ++
    encrypted_index_final compress enc seed files ++
    payload_of compress enc seed files

/-- The reserved listing filename `'tanuki.lst'` excluded at source
line 35. -/
def TANUKI_LST : List Nat := str_codes "tanuki.lst"

/-- One node yielded by `input_dir.rglob('*')`: relative path (already in
posix form, as produced by `relative_to(...).as_posix()`), final name
component, whether it is a regular file, and content bytes. -/
structure FsNode where
  rel_path : List Nat
  name : List Nat
  is_file : Bool
  content : List Nat
deriving DecidableEq

/-- The input tree as seen by the collector: whether the root exists and is
a directory, and the nodes its recursive enumeration would yield. -/
structure FileSystem where
  root_is_dir : Bool
  nodes : List FsNode
deriving DecidableEq

/-- Failure taxonomy named by the spec (section 7). -/
inductive PackError where
  | notFound
deriving DecidableEq

/-- `TacPacker.collect_files` (source lines 32-49) as a plain function.
`Path.rglob` yields nothing when the base path is missing or not a
directory — CPython's pathlib selector starts with
`if not is_dir(parent_path): return iter([])` — so the source raises no
exception there and simply collects zero entries. -/
def collect_files_list (fs : FileSystem) (output_name : List Nat) :
    List SrcFile :=
  ((if fs.root_is_dir then fs.nodes else []).filter
      (fun n => n.is_file && n.name != output_name && n.name != TANUKI_LST)).map
    (fun n => { rel_path := n.rel_path, content := n.content })

/-- The collector with its failure surface made explicit: the spec's
`NotFound` condition would live in the `Except` error branch, but the
source has no code path that produces it. -/
def collect_files (fs : FileSystem) (output_name : List Nat) :
    Except PackError (List SrcFile) :=
  Except.ok (collect_files_list fs output_name)

/-- `TacPacker.write_archive` (source lines 119-169) end to end: collect,
then produce the archive bytes.  The `Except` layer records that the only
failure surface is the collector's (which never fires). -/
def write_archive (compress enc : List Nat → List Nat) (seed : Nat)
    (fs : FileSystem) (output_name : List Nat) :
    Except PackError (List Nat) :=
  match collect_files fs output_name with
  | Except.error e => Except.error e
  | Except.ok files => Except.ok (archive_bytes compress enc seed files)

/-! ### Concrete inputs used by witnesses and counterexamples -/

/-- A one-file input: relative path `"a"`, one content byte. -/
def demo_files : List SrcFile := [{ rel_path := str_codes "a", content := [0] }]

/-- A file system whose enumeration yields exactly the file of
`demo_files`. -/
def demo_fs : FileSystem :=
  { root_is_dir := true
    nodes := [{ rel_path := str_codes "a", name := str_codes "a",
                is_file := true, content := [0] }] }

/-- An output archive name distinct from every demo file name. -/
def demo_out : List Nat := str_codes "out.tac"

/-- A file system whose root is missing (or is not a directory): `rglob`
enumerates nothing even though files would exist under it. -/
def missing_fs : FileSystem :=
  { root_is_dir := false
    nodes := [{ rel_path := str_codes "a", name := str_codes "a",
                is_file := true, content := [0] }] }

/-- A deterministic compressor (a legal deflate-family stand-in per
spec section 4.3, which fixes determinism but not output lengths) whose
output length depends on byte 24 of its input — exactly the byte where the
first entry record's `data_offset` field starts when there is one bucket.
It compresses every file body and every provisional index blob (offset 0)
to 1 byte, but any final index blob (offset `base_offset > 0`) to 9 bytes. -/
def cex_compress (l : List Nat) : List Nat :=
  if l.getD 24 0 = 0 then [1] else [1, 1, 1, 1, 1, 1, 1, 1, 1]

/-! ### Helper lemmas about the hash -/

/-- The accumulator loop is a left fold of the step function. -/
theorem hash_loop_eq_foldl (seed : Nat) :
    ∀ (l : List Nat) (h : Nat),
      hash_loop seed h l =
        List.foldl (fun h c => (c % 2 ^ 32 + 0x19919 * h + seed) % 2 ^ 64) h l := by
  intro l
  induction l with
  | nil => intro h; rfl
  | cons c rest ih => intro h; simp [hash_loop, List.foldl, ih]

/-! ### Helper lemmas: stability of the entry sort -/

/-- Inserting an element not selected by `p` does not change the
`p`-filtered list. -/
theorem filter_orderedInsert_of_neg {α : Type} (r : α → α → Prop)
    [DecidableRel r] (p : α → Bool) (x : α) (hx : p x = false) :
    ∀ l : List α, (List.orderedInsert r x l).filter p = l.filter p := by
  intro l
  induction l with
  | nil => simp [List.orderedInsert, hx]
  | cons y ys ih =>
    by_cases h : r x y
    · simp [List.orderedInsert, h, hx]
    · cases hy : p y <;>
        simp [List.orderedInsert, h, List.filter_cons, hy, ih]

/-- Inserting an element selected by `p`, when everything the insertion can
pass over is not selected by `p`, prepends it to the `p`-filtered list. -/
theorem filter_orderedInsert_of_pos {α : Type} (r : α → α → Prop)
    [DecidableRel r] (p : α → Bool) (x : α) (hx : p x = true)
    (hcut : ∀ y, ¬r x y → p y = false) :
    ∀ l : List α, (List.orderedInsert r x l).filter p = x :: l.filter p := by
  intro l
  induction l with
  | nil => simp [List.orderedInsert, hx]
  | cons y ys ih =>
    by_cases h : r x y
    · simp [List.orderedInsert, h, hx]
    · have hy : p y = false := hcut y h
      simp [List.orderedInsert, h, List.filter_cons, hy, ih]

/-- Stability of the insertion sort: when selected elements can never be
passed over during insertion (they are pairwise `r`-comparable through any
non-selected element in between), sorting does not change the `p`-filtered
subsequence. -/
theorem filter_insertionSort {α : Type} (r : α → α → Prop) [DecidableRel r]
    (p : α → Bool) (hcut : ∀ x y, p x = true → ¬r x y → p y = false) :
    ∀ l : List α, (List.insertionSort r l).filter p = l.filter p := by
  intro l
  induction l with
  | nil => rfl
  | cons x xs ih =>
    show (List.orderedInsert r x (List.insertionSort r xs)).filter p = _
    cases hx : p x
    · rw [filter_orderedInsert_of_neg r p x hx, ih, List.filter_cons, hx]
      simp
    · rw [filter_orderedInsert_of_pos r p x hx (hcut x · hx), ih,
        List.filter_cons, hx]
      simp

/-! ### Helper lemmas: bucket table construction -/

/-- The bucket rows carry exactly the given key list as their hashes. -/
theorem bucket_rows_map_hash (entries : List Entry) :
    ∀ (ks : List Nat) (start : Nat),
      (bucket_rows entries start ks).map Bucket.hash = ks := by
  intro ks
  induction ks with
  | nil => intro start; rfl
  | cons k ks ih => intro start; simp [bucket_rows, ih]

/-- The bucket rows' counts are the per-key occurrence counts. -/
theorem bucket_rows_map_count (entries : List Entry) :
    ∀ (ks : List Nat) (start : Nat),
      (bucket_rows entries start ks).map Bucket.count =
        ks.map (fun k => entries.countP (fun e => e.bucket_hash == k)) := by
  intro ks
  induction ks with
  | nil => intro start; rfl
  | cons k ks ih => intro start; simp [bucket_rows, ih]

/-- Consecutive bucket rows are contiguous: each row's `index + count` is
the next row's `index`. -/
theorem bucket_rows_chain_index (entries : List Entry) :
    ∀ (ks : List Nat) (start : Nat),
      List.Chain' (fun a b => a.index + a.count = b.index)
        (bucket_rows entries start ks) := by
  intro ks
  induction ks with
  | nil => intro start; simp [bucket_rows]
  | cons k ks ih =>
    intro start
    rw [bucket_rows]
    rw [List.chain'_cons']
    refine ⟨?_, ih _⟩
    intro y hy
    cases ks with
    | nil => simp [bucket_rows] at hy
    | cons k2 ks2 =>
      simp [bucket_rows] at hy
      simp [← hy]

/-- The first bucket row starts at the given running index. -/
theorem bucket_rows_headD_index (entries : List Entry) (ks : List Nat)
    (start : Nat) :
    ((bucket_rows entries start ks).map Bucket.index).headD start = start := by
  cases ks <;> simp [bucket_rows]

/-- The sorted key list is strictly ascending. -/
theorem bucket_keys_pairwise_lt (entries : List Entry) :
    List.Pairwise (· < ·) (bucket_keys entries) := by
  have hs : List.Sorted (· ≤ ·) (bucket_keys entries) :=
    List.sorted_insertionSort (· ≤ ·) _
  have hnd : (bucket_keys entries).Nodup :=
    (List.Perm.nodup_iff
      (List.perm_insertionSort (· ≤ ·)
        (entries.map Entry.bucket_hash).dedup)).mpr
      (List.nodup_dedup _)
  exact (List.Pairwise.and hs hnd).imp fun h => lt_of_le_of_ne h.1 h.2

/-- The bucket counts sum to the number of entries. -/
theorem bucket_rows_sum_count (entries : List Entry) :
    ((bucket_rows entries 0 (bucket_keys entries)).map Bucket.count).sum =
      entries.length := by
  rw [bucket_rows_map_count]
  have hperm : (bucket_keys entries).Perm
      (entries.map Entry.bucket_hash).dedup :=
    List.perm_insertionSort (· ≤ ·) _
  have h1 : ((bucket_keys entries).map
        (fun k => entries.countP (fun e => e.bucket_hash == k))).sum =
      ((entries.map Entry.bucket_hash).dedup.map
        (fun k => entries.countP (fun e => e.bucket_hash == k))).sum :=
    List.Perm.sum_eq (List.Perm.map _ hperm)
  rw [h1]
  have h2 : ∀ k : Nat, entries.countP (fun e => e.bucket_hash == k) =
      (entries.map Entry.bucket_hash).count k := by
    intro k
    rw [List.count_eq_countP, List.countP_map]
    rfl
  calc ((entries.map Entry.bucket_hash).dedup.map
          (fun k => entries.countP (fun e => e.bucket_hash == k))).sum
      = ((entries.map Entry.bucket_hash).dedup.map
          (fun k => (entries.map Entry.bucket_hash).count k)).sum := by
        exact congrArg List.sum (List.map_congr_left fun a _ => h2 a)
    _ = (entries.map Entry.bucket_hash).length :=
        List.sum_map_count_dedup_eq_length _
    _ = entries.length := List.length_map _ _

/-! ### Claim theorems: path hasher -/

/-- C7: the path hash is the left fold, over the code points of the
normalized path (backslashes replaced by forward slashes, then upper-cased)
in order, of `acc := (code_point + 0x19919 * acc + seed) mod 2 ^ 64` with
initial accumulator 0; and for every seed the hash of the empty string
is 0. -/
theorem C7_hash_foldl :
    (∀ (s : List Nat) (seed : Nat),
      hash_from_ascii_string s seed =
        List.foldl (fun h c => (c % 2 ^ 32 + 0x19919 * h + seed) % 2 ^ 64) 0
          (normalize_path s)) ∧
    ∀ seed : Nat, hash_from_ascii_string [] seed = 0 :=
  ⟨fun s seed => hash_loop_eq_foldl seed (normalize_path s) 0, fun _ => rfl⟩

/-- C8: the path hash is case-insensitive and separator-normalizing: for
every seed, `hash("a/b.txt", seed) = hash("A\B.TXT", seed)`. -/
theorem C8_hash_case_insensitive :
    ∀ seed : Nat,
      hash_from_ascii_string (str_codes "a/b.txt") seed =
        hash_from_ascii_string (str_codes "A\\B.TXT") seed := by
  intro seed
  have h : normalize_path (str_codes "a/b.txt") =
      normalize_path (str_codes "A\\B.TXT") := by decide
  unfold hash_from_ascii_string
  rw [h]

/-! ### Claim theorems: bucket table and entry ordering -/

/-- C5: in every built archive the buckets are strictly ascending by
bucket key, their counts sum to the entry count, the first bucket starts at
index 0, and consecutive buckets are contiguous
(`index + count = next index`). -/
theorem C5_bucket_invariant :
    ∀ (compress : List Nat → List Nat) (seed : Nat) (files : List SrcFile),
      List.Chain' (fun a b => a.hash < b.hash)
        (sorted_state compress seed files).1 ∧
      ((sorted_state compress seed files).1.map Bucket.count).sum =
        (sorted_state compress seed files).2.length ∧
      ((sorted_state compress seed files).1.map Bucket.index).headD 0 = 0 ∧
      List.Chain' (fun a b => a.index + a.count = b.index)
        (sorted_state compress seed files).1 := by
  intro compress seed files
  refine ⟨?_, ?_, ?_, ?_⟩
  · have hk := (bucket_keys_pairwise_lt
      (process_files compress seed 0 files)).chain'
    rw [← bucket_rows_map_hash (process_files compress seed 0 files)
      (bucket_keys (process_files compress seed 0 files)) 0] at hk
    exact (List.chain'_map Bucket.hash).mp hk
  · have hlen : (sorted_state compress seed files).2.length =
        (process_files compress seed 0 files).length :=
      (List.perm_insertionSort entry_key_le _).length_eq
    rw [hlen]
    exact bucket_rows_sum_count (process_files compress seed 0 files)
  · exact bucket_rows_headD_index _ _ 0
  · exact bucket_rows_chain_index _ _ 0

/-- C6: after `build_buckets` the entry table is sorted ascending by
`(bucket_hash, entry_hash_low)`, it is a permutation of the collected
entries, and the sort is stable: entries sharing both hash components keep
their original collection order. -/
theorem C6_entry_order_stable :
    ∀ (compress : List Nat → List Nat) (seed : Nat) (files : List SrcFile),
      List.Sorted entry_key_le (sorted_state compress seed files).2 ∧
      List.Perm (sorted_state compress seed files).2
        (process_files compress seed 0 files) ∧
      ∀ bh lo : Nat,
        (sorted_state compress seed files).2.filter
            (fun e => e.bucket_hash == bh && e.entry_hash_low == lo) =
          (process_files compress seed 0 files).filter
            (fun e => e.bucket_hash == bh && e.entry_hash_low == lo) := by
  intro compress seed files
  refine ⟨List.sorted_insertionSort entry_key_le _,
    List.perm_insertionSort entry_key_le _, ?_⟩
  intro bh lo
  refine filter_insertionSort entry_key_le _ ?_ _
  intro x y hx hr
  simp only [Bool.and_eq_true, beq_iff_eq] at hx
  by_contra hy
  rw [Bool.not_eq_false] at hy
  simp only [Bool.and_eq_true, beq_iff_eq] at hy
  exact hr (Or.inr ⟨hx.1.trans hy.1.symm,
    le_of_eq (hx.2.trans hy.2.symm)⟩)

/-! ### Helper lemmas: offset assignment -/

/-- Entries produced by `process_files` record their compressed data's
length as `size`. -/
theorem process_files_size_eq_data (compress : List Nat → List Nat)
    (seed : Nat) :
    ∀ (files : List SrcFile) (cur : Nat),
      ∀ e ∈ process_files compress seed cur files, e.size = e.data.length := by
  intro files
  induction files with
  | nil => intro cur e he; simp [process_files] at he
  | cons f fs ih =>
    intro cur e he
    rw [process_files] at he
    rcases List.mem_cons.mp he with h | h
    · rw [h]; rfl
    · exact ih _ e h

/-- Every offset assigned from `cur` onward is at least `cur`. -/
theorem mem_assign_offsets_ge :
    ∀ (l : List Entry) (cur : Nat), ∀ x ∈ assign_offsets cur l, cur ≤ x.offset := by
  intro l
  induction l with
  | nil => intro cur x hx; simp [assign_offsets] at hx
  | cons e es ih =>
    intro cur x hx
    rw [assign_offsets] at hx
    rcases List.mem_cons.mp hx with h | h
    · rw [h]
    · exact le_trans (Nat.le_add_right _ _) (ih _ x h)

/-- Offset assignment only rewrites the `offset` field, so the
`size`/`data` agreement survives it. -/
theorem assign_offsets_sizes :
    ∀ (l : List Entry) (cur : Nat), (∀ x ∈ l, x.size = x.data.length) →
      ∀ x ∈ assign_offsets cur l, x.size = x.data.length := by
  intro l
  induction l with
  | nil => intro cur _ x hx; simp [assign_offsets] at hx
  | cons e es ih =>
    intro cur h x hx
    rw [assign_offsets] at hx
    rcases List.mem_cons.mp hx with hh | hh
    · rw [hh]; exact h e (List.mem_cons_self e es)
    · exact ih _ (fun y hy => h y (List.mem_cons_of_mem e hy)) x hh

/-- Offset assignment leaves the sequence of data blocks unchanged. -/
theorem assign_offsets_map_data :
    ∀ (l : List Entry) (cur : Nat),
      (assign_offsets cur l).map Entry.data = l.map Entry.data := by
  intro l
  induction l with
  | nil => intro cur; rfl
  | cons e es ih => intro cur; simp [assign_offsets, ih]

/-- Offset assignment keeps the number of entries. -/
theorem assign_offsets_length :
    ∀ (l : List Entry) (cur : Nat), (assign_offsets cur l).length = l.length := by
  intro l
  induction l with
  | nil => intro cur; rfl
  | cons e es ih => intro cur; simp [assign_offsets, ih]

/-- Assigned offsets are consecutive: each entry's `offset + size` is the
next entry's `offset`. -/
theorem assign_offsets_chain :
    ∀ (l : List Entry) (cur : Nat), (∀ x ∈ l, x.size = x.data.length) →
      List.Chain' (fun a b => a.offset + a.size = b.offset)
        (assign_offsets cur l) := by
  intro l
  induction l with
  | nil => intro cur _; simp [assign_offsets]
  | cons e es ih =>
    intro cur h
    rw [assign_offsets, List.chain'_cons']
    refine ⟨?_, ih _ (fun y hy => h y (List.mem_cons_of_mem e hy))⟩
    intro y hy
    cases es with
    | nil => simp [assign_offsets] at hy
    | cons f fs =>
      simp only [assign_offsets, List.head?_cons, Option.mem_def,
        Option.some.injEq] at hy
      rw [← hy]
      have he : e.size = e.data.length := h e (List.mem_cons_self e _)
      simp [he]

/-- The first assigned offset is the starting offset. -/
theorem assign_offsets_headD (l : List Entry) (cur : Nat) :
    ((assign_offsets cur l).map Entry.offset).headD cur = cur := by
  cases l <;> simp [assign_offsets]

/-! ### Claim theorem: offset correctness -/

/-- C4: in every archive, `base_offset = 44 + index_size`, every final
entry offset is at least `base_offset`, the first offset equals
`base_offset`, consecutive entries' ranges are adjacent
(`offset + packed_size = next offset`, hence no gaps), the ranges are
pairwise disjoint, and the sizes sum to the payload region's byte
length. -/
theorem C4_offsets :
    ∀ (compress enc : List Nat → List Nat) (seed : Nat) (files : List SrcFile),
      base_offset_of compress enc seed files =
        44 + index_size_of compress enc seed files ∧
      (∀ e ∈ final_entries compress enc seed files,
        base_offset_of compress enc seed files ≤ e.offset) ∧
      ((final_entries compress enc seed files).map Entry.offset).headD
          (base_offset_of compress enc seed files) =
        base_offset_of compress enc seed files ∧
      List.Chain' (fun a b => a.offset + a.size = b.offset)
        (final_entries compress enc seed files) ∧
      List.Pairwise (fun a b => a.offset + a.size ≤ b.offset)
        (final_entries compress enc seed files) ∧
      ((final_entries compress enc seed files).map Entry.size).sum =
        (payload_of compress enc seed files).length := by
  intro compress enc seed files
  have hsz : ∀ x ∈ (sorted_state compress seed files).2,
      x.size = x.data.length := by
    intro x hx
    exact process_files_size_eq_data compress seed files 0 x
      ((List.mem_insertionSort entry_key_le).mp hx)
  have hfe : ∀ x ∈ final_entries compress enc seed files,
      x.size = x.data.length :=
    assign_offsets_sizes _ _ hsz
  have hch : List.Chain' (fun a b => a.offset + a.size = b.offset)
      (final_entries compress enc seed files) :=
    assign_offsets_chain _ _ hsz
  refine ⟨rfl, mem_assign_offsets_ge _ _, assign_offsets_headD _ _, hch, ?_, ?_⟩
  · haveI : IsTrans Entry (fun a b => a.offset + a.size ≤ b.offset) :=
      ⟨by intro a b c h1 h2; omega⟩
    exact List.chain'_iff_pairwise.mp
      (hch.imp fun a b h => le_of_eq h)
  · have hmap : (final_entries compress enc seed files).map Entry.size =
        (final_entries compress enc seed files).map (fun e => e.data.length) :=
      List.map_congr_left fun a ha => hfe a ha
    rw [hmap, payload_of, List.length_flatten, List.map_map]
    rfl

/-- Witness for C4 at a concrete one-file input: the base-offset identity
and non-vacuity of the entry-wise bound. -/
theorem C4_offsets_witness :
    base_offset_of id id 0 demo_files = 44 + index_size_of id id 0 demo_files ∧
    (∀ e ∈ final_entries id id 0 demo_files,
      base_offset_of id id 0 demo_files ≤ e.offset) ∧
    (final_entries id id 0 demo_files).length = 1 :=
  ⟨(C4_offsets id id 0 demo_files).1, (C4_offsets id id 0 demo_files).2.1,
    by decide⟩

/-! ### Helper lemmas: index sizes -/

/-- Length of the padded-and-encrypted index under a length-preserving
cipher. -/
theorem encrypt_index_length (enc : List Nat → List Nat)
    (henc : LenPreserving enc) (x : List Nat) :
    (encrypt_index enc x).length = x.length + pad_len x.length := by
  unfold encrypt_index
  rw [henc]
  simp

/-- The flattened serialization of fixed-width records has length
  `record width * record count`. -/
theorem flatten_map_length {α : Type} (f : α → List Nat) (k : Nat)
    (h : ∀ a, (f a).length = k) :
    ∀ l : List α, ((l.map f).flatten).length = k * l.length := by
  intro l
  induction l with
  | nil => simp
  | cons a as ih =>
    simp only [List.map_cons, List.flatten_cons, List.length_append, ih, h,
      List.length_cons]
    ring

/-- The serialized index blob's byte length is `8 * buckets + 24 * entries`,
independent of any field values. -/
theorem build_index_length (buckets : List Bucket) (entries : List Entry) :
    (build_index buckets entries).length =
      8 * buckets.length + 24 * entries.length := by
  unfold build_index
  rw [List.length_append, flatten_map_length bucket_record 8 (fun _ => rfl),
    flatten_map_length entry_record 24 (fun _ => rfl)]

/-- Injectivity of the 4-byte little-endian serialization below `2 ^ 32`. -/
theorem pack32_inj (a b : Nat) (ha : a < 2 ^ 32) (hb : b < 2 ^ 32)
    (h : pack32 a = pack32 b) : a = b := by
  unfold pack32 at h
  simp only [show (256 : Nat) ^ 2 = 65536 from rfl,
    show (256 : Nat) ^ 3 = 16777216 from rfl, List.cons.injEq,
    and_true] at h
  have ha' : a < 4294967296 := ha
  have hb' : b < 4294967296 := hb
  omega

/-- The four bytes at offset 0x15 of any archive are the packed seed. -/
theorem seed_field_of_archive (compress enc : List Nat → List Nat)
    (seed : Nat) (files : List SrcFile) :
    ((archive_bytes compress enc seed files).drop 21).take 4 = pack32 seed :=
  rfl

/-! ### Claim theorems: index size and the two passes -/

/-- C1 (amended): the serialized index blob's byte length is identical in
the two passes; and whenever the compressor returns outputs of equal length
on the two blobs, the header's `index_size` (measured in pass one) equals
the byte length of the encrypted index actually written (produced in pass
two).  The code itself guarantees only the first half; the second is a
sufficient condition the code never checks (and it is not necessary: the
zero-padding to the 8-byte block boundary can mask small compressed-length
differences). -/
theorem C1_amended :
    ∀ (compress enc : List Nat → List Nat) (seed : Nat) (files : List SrcFile),
      LenPreserving enc →
      (index_blob_final compress enc seed files).length =
        (index_blob_provisional compress seed files).length ∧
      ((compress (index_blob_final compress enc seed files)).length =
          (compress (index_blob_provisional compress seed files)).length →
        (encrypted_index_final compress enc seed files).length =
          index_size_of compress enc seed files) := by
  intro compress enc seed files henc
  constructor
  · unfold index_blob_final index_blob_provisional final_entries
    rw [build_index_length, build_index_length, assign_offsets_length]
  · intro hlen
    unfold encrypted_index_final index_size_of
    rw [encrypt_index_length enc henc, encrypt_index_length enc henc, hlen]

/-- Witness for C1 (amended) with the identity compressor and cipher on a
one-file input. -/
theorem C1_amended_witness :
    (index_blob_final id id 0 demo_files).length =
      (index_blob_provisional id 0 demo_files).length ∧
    (encrypted_index_final id id 0 demo_files).length =
      index_size_of id id 0 demo_files :=
  ⟨(C1_amended id id 0 demo_files fun _ => rfl).1,
   (C1_amended id id 0 demo_files fun _ => rfl).2 (by decide)⟩

/-- C1 (counterexample): with a deterministic, spec-conforming compressor
whose output length depends on the offset bytes, the provisional and final
encrypted indexes of a one-file archive have different lengths (8 versus
16), so the header's `index_size` does not equal the length of the
encrypted index written after it. -/
theorem C1_counterexample :
    index_size_of cex_compress id 0 demo_files = 8 ∧
    (encrypted_index_final cex_compress id 0 demo_files).length = 16 ∧
    index_size_of cex_compress id 0 demo_files ≠
      (encrypted_index_final cex_compress id 0 demo_files).length := by
  refine ⟨by decide, by decide, by decide⟩

/-- C2 (amended): `write_archive` performs no size-stability check at all:
it always succeeds, writing the pass-one `index_size` into the header bytes
at offset 0x11 and the pass-two ciphertext at offset 0x2C — even when the
two disagree.  No `EncodingInvariantViolation` code path exists. -/
theorem C2_amended :
    (∀ (compress enc : List Nat → List Nat) (seed : Nat) (fs : FileSystem)
        (o : List Nat),
      write_archive compress enc seed fs o =
        Except.ok (archive_bytes compress enc seed (collect_files_list fs o))) ∧
    ∀ (compress enc : List Nat → List Nat) (seed : Nat) (files : List SrcFile),
      ((archive_bytes compress enc seed files).drop 17).take 4 =
        pack32 (index_size_of compress enc seed files) ∧
      ((archive_bytes compress enc seed files).drop 44).take
          (encrypted_index_final compress enc seed files).length =
        encrypted_index_final compress enc seed files := by
  refine ⟨fun compress enc seed fs o => rfl,
    fun compress enc seed files => ⟨rfl, ?_⟩⟩
  show (encrypted_index_final compress enc seed files ++
      payload_of compress enc seed files).take
      (encrypted_index_final compress enc seed files).length = _
  exact List.take_left _ _

/-- C2 (counterexample): a run in which the two passes yield encrypted
indexes of different lengths (8 versus 16) and the packer nevertheless
completes and writes an archive instead of failing. -/
theorem C2_counterexample :
    index_size_of cex_compress id 0 demo_files = 8 ∧
    (encrypted_index_final cex_compress id 0 demo_files).length = 16 ∧
    write_archive cex_compress id 0 demo_fs demo_out =
      Except.ok (archive_bytes cex_compress id 0 demo_files) :=
  ⟨by decide, by decide, rfl⟩

/-! ### Claim theorems: reproducibility -/

/-- C3 (amended): with every input fixed, two runs produce byte-identical
archives exactly when their randomly drawn seeds coincide; distinct 32-bit
seeds always give different files (the header's seed field differs). -/
theorem C3_amended :
    ∀ (compress enc : List Nat → List Nat) (seed1 seed2 : Nat)
      (files : List SrcFile),
      seed1 < 2 ^ 32 → seed2 < 2 ^ 32 →
      (archive_bytes compress enc seed1 files =
          archive_bytes compress enc seed2 files ↔ seed1 = seed2) := by
  intro compress enc seed1 seed2 files h1 h2
  constructor
  · intro h
    have hs : pack32 seed1 = pack32 seed2 := by
      rw [← seed_field_of_archive compress enc seed1 files,
        ← seed_field_of_archive compress enc seed2 files, h]
    exact pack32_inj seed1 seed2 h1 h2 hs
  · intro h
    rw [h]

/-- Witness for C3 (amended) at seeds 0 and 1. -/
theorem C3_amended_witness :
    (archive_bytes id id 0 demo_files = archive_bytes id id 1 demo_files) ↔
      (0 = 1) :=
  C3_amended id id 0 1 demo_files (by decide) (by decide)

/-- C3 (counterexample): two runs over the same fixed input directory and
output name — differing only in the per-run random seed draw (0 and 1, both
legal `randint(0, 0xFFFFFFFF)` results) — produce different archive
bytes. -/
theorem C3_counterexample :
    archive_bytes id id 0 demo_files ≠ archive_bytes id id 1 demo_files := by
  decide

/-! ### Claim theorems: collector and empty archives -/

/-- C9 (amended): the collector never fails.  A missing or non-directory
root yields zero entries (pathlib's recursive glob enumerates nothing and
raises nothing), after which the packer writes the same valid empty archive
as for an existing empty directory: no entries, no buckets, empty
payload. -/
theorem C9_amended :
    (∀ (fs : FileSystem) (o : List Nat), fs.root_is_dir = false →
      collect_files fs o = Except.ok []) ∧
    ∀ (compress enc : List Nat → List Nat) (seed : Nat) (fs : FileSystem)
      (o : List Nat),
      collect_files fs o = Except.ok [] →
        write_archive compress enc seed fs o =
          Except.ok (archive_bytes compress enc seed []) ∧
        (sorted_state compress seed []).2.length = 0 ∧
        (sorted_state compress seed []).1.length = 0 ∧
        payload_of compress enc seed [] = [] := by
  constructor
  · intro fs o h
    simp [collect_files, collect_files_list, h]
  · intro compress enc seed fs o h
    have hl : collect_files_list fs o = [] := by
      simpa [collect_files] using h
    exact ⟨by simp [write_archive, collect_files, hl], rfl, rfl, rfl⟩

/-- Witness for C9 (amended): the missing-root file system (which does
contain a file node) collects nothing and still produces an archive. -/
theorem C9_amended_witness :
    collect_files missing_fs demo_out = Except.ok [] ∧
    write_archive id id 0 missing_fs demo_out =
      Except.ok (archive_bytes id id 0 []) :=
  ⟨C9_amended.1 missing_fs demo_out rfl,
   (C9_amended.2 id id 0 missing_fs demo_out
      (C9_amended.1 missing_fs demo_out rfl)).1⟩

/-- C9 (counterexample): on an input whose root does not exist (or is not a
directory) the collector does not fail with a `NotFound` condition — it
returns successfully with zero entries. -/
theorem C9_counterexample :
    missing_fs.root_is_dir = false ∧
    collect_files missing_fs demo_out = Except.ok [] ∧
    write_archive id id 7 missing_fs demo_out =
      Except.ok (archive_bytes id id 7 []) :=
  ⟨rfl, rfl, rfl⟩

/-! ### Claim theorem: index size is a positive multiple of 8 -/

/-- C10: for every archive (the empty one included), the `index_size`
recorded in the header is a positive multiple of 8: the compressed index is
never empty (a deflate stream has at least its fixed framing, stated here
as a hypothesis on the external compressor) and is zero-padded to the
8-byte Blowfish block boundary before the length-preserving encryption. -/
theorem C10_index_size_multiple :
    ∀ (compress enc : List Nat → List Nat) (seed : Nat) (files : List SrcFile),
      LenPreserving enc → (∀ l, 0 < (compress l).length) →
      index_size_of compress enc seed files % 8 = 0 ∧
        8 ≤ index_size_of compress enc seed files := by
  intro compress enc seed files henc hc
  unfold index_size_of
  rw [encrypt_index_length enc henc]
  have hn := hc (index_blob_provisional compress seed files)
  unfold pad_len
  omega

/-- Witness for C10 on the empty directory, with a compressor producing a
1-byte stream: the index size evaluates to exactly 8. -/
theorem C10_witness :
    index_size_of (fun _ => [1]) id 0 [] % 8 = 0 ∧
      8 ≤ index_size_of (fun _ => [1]) id 0 [] :=
  C10_index_size_multiple (fun _ => [1]) id 0 [] (fun _ => rfl)
    (fun _ => Nat.one_pos)

end ArcTac
